import Mathlib

/-!
Verification of the subtitle-OCR job engine (`src/app.py`).

This file is a shallow embedding of the program's data model and
operations, translated from the Python source.  Pure functions become
Lean functions on `List Char` / `Nat` / `Int` / `ℚ`; the background
worker becomes a function from an environment (the values read from
external collaborators and from concurrently mutated flags) to the
ordered list of job-field writes it performs; external collaborators
(OpenCV decoding, Tesseract OCR) are oracle inputs.

Machine floats of the source are modelled by exact rationals: every
`float` comparison or truncation in the source appears here as the
corresponding exact comparison on `ℚ` (built with `mkRat` so that
concrete instances evaluate).  Rational thresholds such as `0.88` are
the exact rationals `88/100`; this agrees with the source's
double-precision comparison except on inputs within one ulp of a
threshold, which none of the concrete inputs used here approach.
-/

namespace SubtitleApp

/-! ## Text normalisation (`_normalize_text`, `src/app.py` lines 134-135)

`" ".join(text.strip().split())`.  Python's no-argument `str.split`
splits on runs of whitespace and discards empty fields; `str.strip`
removes leading and trailing whitespace.  `pyIsSpace` models the ASCII
part of Python's whitespace class; the additional Unicode whitespace
code points accepted by Python do not occur in any input considered
here, and every proof below is insensitive to the exact membership of
the class as long as `' '` belongs to it and split fields avoid it. -/

def pyIsSpace (c : Char) : Bool :=
  c = ' ' || c = '\t' || c = '\n' || c = '\r' || c = '\x0b' || c = '\x0c'

/-- `str.strip()` : drop whitespace from both ends. -/
def pyStrip (l : List Char) : List Char :=
  ((l.dropWhile pyIsSpace).reverse.dropWhile pyIsSpace).reverse

/-- Accumulator worker for `str.split()`; `acc` holds the current field,
reversed. -/
def pySplitAux : List Char → List Char → List (List Char)
  | [], acc => if acc.isEmpty then [] else [acc.reverse]
  | c :: cs, acc =>
    if pyIsSpace c then
      if acc.isEmpty then pySplitAux cs [] else acc.reverse :: pySplitAux cs []
    else pySplitAux cs (c :: acc)

/-- `str.split()` with no separator: whitespace-run splitting, no empty
fields. -/
def pySplit (l : List Char) : List (List Char) := pySplitAux l []

/-- `" ".join(ws)`. -/
def joinSpace : List (List Char) → List Char
  | [] => []
  | [w] => w
  | w :: v :: ws => w ++ ' ' :: joinSpace (v :: ws)

/-- `_normalize_text` (`src/app.py` lines 134-135). -/
def _normalize_text (l : List Char) : List Char :=
  joinSpace (pySplit (pyStrip l))

/-! Lemmas for idempotence of `_normalize_text`. -/

/-- Every field produced by `pySplitAux` is nonempty and free of
whitespace, provided the accumulator is. -/
lemma pySplitAux_fields : ∀ (l acc : List Char),
    (∀ c ∈ acc, pyIsSpace c = false) →
    ∀ w ∈ pySplitAux l acc, w ≠ [] ∧ ∀ c ∈ w, pyIsSpace c = false := by
  intro l
  induction l with
  | nil =>
    intro acc hacc w hw
    simp only [pySplitAux] at hw
    split at hw
    · simp at hw
    · rename_i hne
      simp only [List.mem_singleton] at hw
      subst hw
      refine ⟨?_, ?_⟩
      · simp only [ne_eq, List.reverse_eq_nil_iff]
        intro h
        rw [h] at hne
        simp at hne
      · intro c hc
        exact hacc c (List.mem_reverse.mp hc)
  | cons c cs ih =>
    intro acc hacc w hw
    simp only [pySplitAux] at hw
    by_cases hsp : pyIsSpace c
    · rw [if_pos hsp] at hw
      split at hw
      · exact ih [] (by simp) w hw
      · rename_i hne
        rcases List.mem_cons.mp hw with h | h
        · subst h
          refine ⟨?_, ?_⟩
          · simp only [ne_eq, List.reverse_eq_nil_iff]
            intro h
            rw [h] at hne
            simp at hne
          · intro d hd
            exact hacc d (List.mem_reverse.mp hd)
        · exact ih [] (by simp) w h
    · rw [if_neg hsp] at hw
      refine ih (c :: acc) ?_ w hw
      intro d hd
      rcases List.mem_cons.mp hd with h | h
      · subst h; exact Bool.of_not_eq_true hsp
      · exact hacc d h

/-- Running the splitter through a whitespace-free block just extends the
accumulator. -/
lemma pySplitAux_through : ∀ (w l acc : List Char),
    (∀ c ∈ w, pyIsSpace c = false) →
    pySplitAux (w ++ l) acc = pySplitAux l (w.reverse ++ acc) := by
  intro w
  induction w with
  | nil => intro l acc _; simp
  | cons c cs ih =>
    intro l acc hw
    have hc : pyIsSpace c = false := hw c (List.mem_cons_self c cs)
    simp only [List.cons_append, pySplitAux, hc, List.append_eq]
    rw [if_neg (by simp [hc])]
    rw [ih l (c :: acc) (fun d hd => hw d (List.mem_cons_of_mem c hd))]
    simp

/-- Splitting the space-joined list of nonempty whitespace-free fields
recovers the fields. -/
lemma pySplit_joinSpace : ∀ (ws : List (List Char)),
    (∀ w ∈ ws, w ≠ [] ∧ ∀ c ∈ w, pyIsSpace c = false) →
    pySplit (joinSpace ws) = ws := by
  intro ws
  induction ws with
  | nil => intro _; rfl
  | cons w vs ih =>
    intro h
    obtain ⟨hw, hwc⟩ := h w (List.mem_cons_self w vs)
    cases vs with
    | nil =>
      simp only [joinSpace, pySplit]
      rw [show w = w ++ [] by simp, pySplitAux_through w [] [] hwc]
      simp only [pySplitAux, List.append_nil]
      rw [if_neg (by simp [hw])]
      simp
    | cons v us =>
      simp only [joinSpace, pySplit]
      rw [pySplitAux_through w (' ' :: joinSpace (v :: us)) [] hwc]
      simp only [pySplitAux, List.append_nil]
      rw [if_pos (by rfl)]
      rw [if_neg (by simp [hw])]
      simp only [List.reverse_reverse]
      rw [show pySplitAux (joinSpace (v :: us)) [] = pySplit (joinSpace (v :: us)) from rfl]
      rw [ih (fun u hu => h u (List.mem_cons_of_mem w hu))]

/-- The space-join of nonempty fields beginning with `v :: us` is
nonempty. -/
lemma joinSpace_ne_nil (v : List Char) (us : List (List Char)) (hv : v ≠ []) :
    joinSpace (v :: us) ≠ [] := by
  cases us with
  | nil => simpa [joinSpace] using hv
  | cons u ws =>
    simp only [joinSpace]
    intro h
    exact hv (List.append_eq_nil.mp h).1

/-- First character of the space-join of good fields is not whitespace. -/
lemma joinSpace_head (ws : List (List Char))
    (h : ∀ w ∈ ws, w ≠ [] ∧ ∀ c ∈ w, pyIsSpace c = false) :
    ∀ c ∈ (joinSpace ws).head?, pyIsSpace c = false := by
  cases ws with
  | nil => simp [joinSpace]
  | cons w vs =>
    obtain ⟨hw, hwc⟩ := h w (List.mem_cons_self w vs)
    obtain ⟨c, cs, rfl⟩ := List.exists_cons_of_ne_nil hw
    have hc0 : pyIsSpace c = false := hwc c (List.mem_cons_self c cs)
    cases vs with
    | nil =>
      intro d hd
      simp only [joinSpace, List.head?_cons, Option.mem_def, Option.some_inj] at hd
      cases hd
      exact hc0
    | cons v us =>
      intro d hd
      simp only [joinSpace, List.cons_append, List.head?_cons, Option.mem_def,
        Option.some_inj] at hd
      cases hd
      exact hc0

/-- Last character of the space-join of good fields is not whitespace. -/
lemma joinSpace_last : ∀ (ws : List (List Char)),
    (∀ w ∈ ws, w ≠ [] ∧ ∀ c ∈ w, pyIsSpace c = false) →
    ∀ c ∈ (joinSpace ws).getLast?, pyIsSpace c = false := by
  intro ws
  induction ws with
  | nil => simp [joinSpace]
  | cons w vs ih =>
    intro h
    obtain ⟨hw, hwc⟩ := h w (List.mem_cons_self w vs)
    cases vs with
    | nil =>
      intro d hd
      simp only [joinSpace, Option.mem_def] at hd
      exact hwc d (List.mem_of_mem_getLast? hd)
    | cons v us =>
      intro d hd
      simp only [joinSpace] at hd
      have hne : joinSpace (v :: us) ≠ [] :=
        joinSpace_ne_nil v us (h v (by simp)).1
      rw [show w ++ ' ' :: joinSpace (v :: us) = (w ++ [' ']) ++ joinSpace (v :: us) by simp,
        List.getLast?_append_of_ne_nil _ hne] at hd
      exact ih (fun u hu => h u (List.mem_cons_of_mem w hu)) d hd

/-- `dropWhile` is the identity when the head fails the predicate. -/
lemma dropWhile_eq_self_of_head (p : Char → Bool) (l : List Char)
    (h : ∀ c ∈ l.head?, p c = false) : l.dropWhile p = l := by
  cases l with
  | nil => rfl
  | cons c cs =>
    have : p c = false := h c (by simp)
    simp [List.dropWhile, this]

/-- `pyStrip` is the identity on a space-join of good fields. -/
lemma pyStrip_joinSpace (ws : List (List Char))
    (h : ∀ w ∈ ws, w ≠ [] ∧ ∀ c ∈ w, pyIsSpace c = false) :
    pyStrip (joinSpace ws) = joinSpace ws := by
  unfold pyStrip
  rw [dropWhile_eq_self_of_head pyIsSpace _ (joinSpace_head ws h)]
  rw [dropWhile_eq_self_of_head pyIsSpace _ ?_]
  · simp
  · intro c hc
    rw [List.head?_reverse] at hc
    exact joinSpace_last ws h c hc

/-- Normalisation is idempotent. -/
lemma normalize_idem (x : List Char) :
    _normalize_text (_normalize_text x) = _normalize_text x := by
  unfold _normalize_text
  have hfields : ∀ w ∈ pySplit (pyStrip x), w ≠ [] ∧ ∀ c ∈ w, pyIsSpace c = false :=
    pySplitAux_fields (pyStrip x) [] (by simp)
  rw [pyStrip_joinSpace _ hfields, pySplit_joinSpace _ hfields]

/-! ## Line filter (`_line_char_ratios`, `_filter_subtitle_lines`,
`src/app.py` lines 138-181)

Character-class ratios are exact rationals `count / length` built with
`mkRat`. -/

/-- `"가" <= ch <= "힣"` : Hangul syllable block. -/
def isHangul (c : Char) : Bool := '가' ≤ c && c ≤ '힣'

/-- `ch.isascii() and ch.isalnum()` : ASCII alphanumeric. -/
def isAsciiAlnum (c : Char) : Bool :=
  ('0' ≤ c && c ≤ '9') || ('A' ≤ c && c ≤ 'Z') || ('a' ≤ c && c ≤ 'z')

/-- `_line_char_ratios` (`src/app.py` lines 138-150): (kor, latin_num,
special) ratios of a line. -/
def _line_char_ratios (line : List Char) : ℚ × ℚ × ℚ :=
  let total := line.length
  if total = 0 then (0, 0, 1)
  else
    let korCount := (line.filter isHangul).length
    let latinNumCount := (line.filter isAsciiAlnum).length
    let specialCount :=
      (line.filter (fun ch => !pyIsSpace ch && !(isHangul ch || isAsciiAlnum ch))).length
    (mkRat korCount total, mkRat latinNumCount total, mkRat specialCount total)

/-- `_filter_subtitle_lines` (`src/app.py` lines 153-181). -/
def _filter_subtitle_lines (rawLines : List (List Char))
    (koreanOnly includeEnglish : Bool) : List (List Char) :=
  List.foldr (fun rawLine cleaned =>
    let line := _normalize_text rawLine
    if line.length ≤ 3 then cleaned
    else
      let r := _line_char_ratios line
      let minKor : ℚ := if koreanOnly then mkRat 45 100
        else if includeEnglish then mkRat 20 100 else mkRat 30 100
      let maxLatin : ℚ := if koreanOnly then mkRat 35 100
        else if includeEnglish then mkRat 75 100 else mkRat 55 100
      let maxSpecial : ℚ := if koreanOnly then mkRat 35 100 else mkRat 45 100
      if r.1 < minKor then cleaned
      else if maxLatin < r.2.1 then cleaned
      else if maxSpecial < r.2.2 then cleaned
      else line :: cleaned) [] rawLines

/-! ## `difflib.SequenceMatcher` ratio (Python standard library)

`_dedupe_lines` calls `SequenceMatcher(None, new, existing).ratio()`.
The embedding below follows CPython's `difflib.py` with `isjunk=None`;
the `autojunk` heuristic only activates for `len(b) >= 200` and the
junk-extension loops of `find_longest_match` are no-ops without junk,
so both are omitted (no line handled here reaches 200 characters). -/

/-- Ascending positions `j ∈ [blo, bhi)` with `b[j] = c` (difflib's
`b2j[c]` restricted to the current window). -/
def matchIndices (b : List Char) (blo bhi : Nat) (c : Char) : List Nat :=
  (List.range' blo (bhi - blo)).filter (fun j => b.getD j ' ' = c)

/-- `j2len.get(j, 0)` on an association list. -/
def lookupD (m : List (Nat × Nat)) (k : Nat) : Nat :=
  match m.find? (fun p => p.1 == k) with
  | some p => p.2
  | none => 0

/-- Inner `for j in b2j.get(a[i], [])` loop of `find_longest_match`:
threads the new `j2len` map and the current best `(besti, bestj,
bestsize)`.  `k > bestsize` is strict, so the earliest `(i, j)`
attaining the maximum wins, as in the source. -/
def flmInner (prev : List (Nat × Nat)) (i : Nat) :
    List Nat → List (Nat × Nat) → Nat × Nat × Nat → List (Nat × Nat) × (Nat × Nat × Nat)
  | [], newm, best => (newm, best)
  | j :: js, newm, best =>
    let k := (if j = 0 then 0 else lookupD prev (j - 1)) + 1
    let best := if best.2.2 < k then (i + 1 - k, j + 1 - k, k) else best
    flmInner prev i js ((j, k) :: newm) best

/-- Outer `for i in range(alo, ahi)` loop of `find_longest_match`. -/
def flmOuter (a b : List Char) (blo bhi : Nat) :
    List Nat → List (Nat × Nat) → Nat × Nat × Nat → Nat × Nat × Nat
  | [], _prev, best => best
  | i :: is, prev, best =>
    let js := matchIndices b blo bhi (a.getD i ' ')
    let (newm, best) := flmInner prev i js [] best
    flmOuter a b blo bhi is newm best

/-- `SequenceMatcher.find_longest_match` on the window
`a[alo:ahi] × b[blo:bhi]` (junk-free). -/
def find_longest_match (a b : List Char) (alo ahi blo bhi : Nat) : Nat × Nat × Nat :=
  flmOuter a b blo bhi (List.range' alo (ahi - alo)) [] (alo, blo, 0)

/-- Total size of all matching blocks (the recursion of
`get_matching_blocks`, summing only the sizes).  The fuel bounds the
recursion depth; each recursive call strictly shrinks the combined
window, so `a.length + b.length + 1` always suffices. -/
def matchTotalGo (a b : List Char) : Nat → Nat → Nat → Nat → Nat → Nat
  | 0, _, _, _, _ => 0
  | fuel + 1, alo, ahi, blo, bhi =>
    let r := find_longest_match a b alo ahi blo bhi
    let i := r.1
    let j := r.2.1
    let k := r.2.2
    if k = 0 then 0
    else k + matchTotalGo a b fuel alo i blo j + matchTotalGo a b fuel (i + k) ahi (j + k) bhi

/-- Number of matched characters reported by `get_matching_blocks`. -/
def matchTotal (a b : List Char) : Nat :=
  matchTotalGo a b (a.length + b.length + 1) 0 a.length 0 b.length

/-- `SequenceMatcher(None, a, b).ratio() = 2*M / (len(a)+len(b))`
(difflib's `_calculate_ratio`; `1.0` when both sequences are empty). -/
def ratioQ (a b : List Char) : ℚ :=
  if a.length + b.length = 0 then 1
  else mkRat (2 * matchTotal a b) (a.length + b.length)

/-! ## Deduplicator (`_dedupe_lines`, `src/app.py` lines 184-197) -/

/-- Loop of `_dedupe_lines`: `results` is the ordered output so far,
`seen` the set of verbatim lines already kept (the Python `set` as a
list; elements are inserted exactly when appended to `results`). -/
def dedupeGo : List (List Char) → List (List Char) → List (List Char) → List (List Char)
  | [], results, _seen => results
  | line :: rest, results, seen =>
    let normalized := _normalize_text line
    if normalized = [] then dedupeGo rest results seen
    else if normalized ∈ seen then dedupeGo rest results seen
    else if results.any (fun existing => decide (mkRat 88 100 ≤ ratioQ normalized existing)) then
      dedupeGo rest results seen
    else dedupeGo rest (results ++ [normalized]) (normalized :: seen)

/-- `_dedupe_lines` (`src/app.py` lines 184-197). -/
def _dedupe_lines (lines : List (List Char)) : List (List Char) :=
  dedupeGo lines [] []

/-- Invariant of the dedupe loop: the output extends `results` with a
subsequence of the normalised remaining input, stays duplicate-free,
and every later element scores `< 0.88` against every earlier one in
the code's argument order `ratio(later, earlier)`. -/
lemma dedupeGo_spec : ∀ (rest results seen : List (List Char)),
    results.Nodup →
    (∀ x, x ∈ seen ↔ x ∈ results) →
    results.Pairwise (fun a b => ratioQ b a < mkRat 88 100) →
    (dedupeGo rest results seen).Nodup ∧
    (dedupeGo rest results seen).Pairwise (fun a b => ratioQ b a < mkRat 88 100) ∧
    ∃ t, dedupeGo rest results seen = results ++ t ∧ List.Sublist t (rest.map _normalize_text) := by
  intro rest
  induction rest with
  | nil =>
    intro results seen hnd _hseen hpw
    exact ⟨hnd, hpw, [], by simp [dedupeGo], by simp⟩
  | cons line rest ih =>
    intro results seen hnd hseen hpw
    simp only [dedupeGo]
    by_cases h1 : _normalize_text line = []
    · rw [if_pos h1]
      obtain ⟨ha, hb, t, ht, hts⟩ := ih results seen hnd hseen hpw
      exact ⟨ha, hb, t, ht, hts.trans (by simp)⟩
    · rw [if_neg h1]
      by_cases h2 : _normalize_text line ∈ seen
      · rw [if_pos h2]
        obtain ⟨ha, hb, t, ht, hts⟩ := ih results seen hnd hseen hpw
        exact ⟨ha, hb, t, ht, hts.trans (by simp)⟩
      · rw [if_neg h2]
        by_cases h3 : results.any
            (fun existing => decide (mkRat 88 100 ≤ ratioQ (_normalize_text line) existing)) = true
        · rw [if_pos h3]
          obtain ⟨ha, hb, t, ht, hts⟩ := ih results seen hnd hseen hpw
          exact ⟨ha, hb, t, ht, hts.trans (by simp)⟩
        · rw [if_neg h3]
          have hnotmem : _normalize_text line ∉ results := fun hm => h2 ((hseen _).mpr hm)
          have hnd' : (results ++ [_normalize_text line]).Nodup := by
            simp [List.nodup_append, hnd, hnotmem]
          have hseen' : ∀ x, x ∈ _normalize_text line :: seen ↔
              x ∈ results ++ [_normalize_text line] := by
            intro x
            simp only [List.mem_cons, List.mem_append, List.mem_singleton, hseen x]
            tauto
          have hratio : ∀ a ∈ results, ratioQ (_normalize_text line) a < mkRat 88 100 := by
            intro a hmem
            by_contra hge
            apply h3
            rw [List.any_eq_true]
            exact ⟨a, hmem, by simpa using not_lt.mp hge⟩
          have hpw' : (results ++ [_normalize_text line]).Pairwise
              (fun a b => ratioQ b a < mkRat 88 100) := by
            rw [List.pairwise_append]
            refine ⟨hpw, by simp, ?_⟩
            intro a ha b hb
            rw [List.mem_singleton] at hb
            subst hb
            exact hratio a ha
          obtain ⟨ha, hb, t, ht, hts⟩ := ih _ _ hnd' hseen' hpw'
          refine ⟨ha, hb, _normalize_text line :: t, ?_, ?_⟩
          · rw [ht]; simp
          · simpa using List.Sublist.cons₂ (_normalize_text line) hts

/-- C8: `_normalize_text("  a   b\n")` equals `"a b"`, and normalisation
is idempotent: `_normalize_text (_normalize_text x) = _normalize_text x`
for every string `x`. -/
theorem c8_normalize_example_and_idem :
    _normalize_text "  a   b\n".toList = "a b".toList ∧
    ∀ x : List Char, _normalize_text (_normalize_text x) = _normalize_text x :=
  ⟨by decide, normalize_idem⟩

/-- C1 (amended): the deduplicator's output contains no verbatim
duplicates, is a subsequence of the normalised input lines (first-seen
order preserved), and every kept line scores a similarity ratio
`< 0.88` against each earlier-kept line **in the argument order the
code uses**, `SequenceMatcher(None, newcomer, existing)`.  The
claim's symmetric reading fails because the ratio is asymmetric; see
the counterexample. -/
theorem c1_dedupe_amended (lines : List (List Char)) :
    (_dedupe_lines lines).Nodup ∧
    List.Sublist (_dedupe_lines lines) (lines.map _normalize_text) ∧
    (_dedupe_lines lines).Pairwise (fun earlier later => ratioQ later earlier < mkRat 88 100) := by
  obtain ⟨ha, hb, t, ht, hts⟩ := dedupeGo_spec lines [] [] (by simp) (by simp) (by simp)
  refine ⟨ha, ?_, hb⟩
  rw [show _dedupe_lines lines = dedupeGo lines [] [] from rfl, ht]
  simpa using hts

set_option maxRecDepth 10000 in
/-- C1 counterexample: on input
`["aaaaaaaaaaaaadiet", "aaaaaaaaaaaaatide"]` the deduplicator keeps
both lines (the incoming second line scores `ratio = 14/17 < 0.88`
against the first), yet the two distinct output lines have similarity
ratio `SequenceMatcher(None, first, second) = 15/17 ≥ 0.88` — so the
output does contain two distinct lines whose similarity ratio is
`≥ 0.88`, refuting the claim as stated. -/
theorem c1_dedupe_counterexample :
    _dedupe_lines ["aaaaaaaaaaaaadiet".toList, "aaaaaaaaaaaaatide".toList] =
      ["aaaaaaaaaaaaadiet".toList, "aaaaaaaaaaaaatide".toList] ∧
    "aaaaaaaaaaaaadiet".toList ≠ "aaaaaaaaaaaaatide".toList ∧
    mkRat 88 100 ≤ ratioQ "aaaaaaaaaaaaadiet".toList "aaaaaaaaaaaaatide".toList :=
  ⟨by decide, by decide, by decide⟩

/-! ## Region Segmenter component filter (`_preprocess_subtitle_roi`,
`src/app.py` lines 50-84)

The colour gating, morphological closing and connected-component
labelling are OpenCV calls (external); what the source itself decides
is, for each labelled component with bounding `width`/`height` and
pixel `area`, whether it survives into the filtered mask.  `int(x)` on
the nonnegative products is truncation, i.e. the floor. -/

/-- `int(q)` for a nonnegative rational. -/
def ratFloorNat (q : ℚ) : Nat := (⌊q⌋).toNat

/-- `roi_area = max(roi_h * roi_w, 1)` (line 51). -/
def roi_area (roiW roiH : Nat) : Nat := max (roiH * roiW) 1

/-- `min_area = max(12, int(roi_area * 0.00008))` (line 53). -/
def min_area (roiW roiH : Nat) : Nat :=
  max 12 (ratFloorNat (mkRat (8 * roi_area roiW roiH) 100000))

/-- `max_area = int(roi_area * 0.08)` (line 54). -/
def max_area (roiW roiH : Nat) : Nat :=
  ratFloorNat (mkRat (8 * roi_area roiW roiH) 100)

/-- `min_box_h = max(8, int(roi_h * 0.015))` (line 55). -/
def min_box_h (roiH : Nat) : Nat := max 8 (ratFloorNat (mkRat (15 * roiH) 1000))

/-- `max_box_h = max(min_box_h + 1, int(roi_h * 0.35))` (line 56). -/
def max_box_h (roiH : Nat) : Nat :=
  max (min_box_h roiH + 1) (ratFloorNat (mkRat (35 * roiH) 100))

/-- `min_box_w = 2` (line 57). -/
def min_box_w : Nat := 2

/-- `max_box_w = max(min_box_w + 1, int(roi_w * 0.65))` (line 58). -/
def max_box_w (roiW : Nat) : Nat :=
  max (min_box_w + 1) (ratFloorNat (mkRat (65 * roiW) 100))

/-- The per-component keep/reject decision of the loop at lines 63-82:
`true` exactly when none of the `continue` guards fires. -/
def componentKept (roiW roiH width height area : Nat) : Bool :=
  if area < min_area roiW roiH ∨ max_area roiW roiH < area then false
  else if width < min_box_w ∨ max_box_w roiW < width then false
  else if height < min_box_h roiH ∨ max_box_h roiH < height then false
  else
    let aspect : ℚ := mkRat width (max height 1)
    let fill : ℚ := mkRat area (max (width * height) 1)
    if (14 : ℚ) < aspect ∨ aspect < mkRat 6 100 then false
    else if fill < mkRat 8 100 ∨ mkRat 95 100 < fill then false
    else true

/-- The claim's own description of the filter (translated from the
spec's words, *not* from the source, for refinement comparison):
area ∈ [0.00008, 0.08]·(ROI area), height ∈ [1.5%, 35%]·(ROI height),
width ∈ [2 px, 65%·(ROI width)], aspect `w/h` ∈ [0.06, 14], fill
`area/(w·h)` ∈ [0.08, 0.95]. -/
def componentKeptClaimed (roiW roiH width height area : Nat) : Prop :=
  mkRat (8 * (roiW * roiH)) 100000 ≤ (area : ℚ) ∧
  (area : ℚ) ≤ mkRat (8 * (roiW * roiH)) 100 ∧
  mkRat (15 * roiH) 1000 ≤ (height : ℚ) ∧ (height : ℚ) ≤ mkRat (35 * roiH) 100 ∧
  2 ≤ width ∧ (width : ℚ) ≤ mkRat (65 * roiW) 100 ∧
  mkRat 6 100 ≤ mkRat width height ∧ mkRat width height ≤ 14 ∧
  mkRat 8 100 ≤ mkRat area (width * height) ∧ mkRat area (width * height) ≤ mkRat 95 100

/-- C6 (amended): a connected component of the closed mask is kept in
the filtered mask exactly when its area lies in
`[max(12, int(0.00008·A)), int(0.08·A)]` (A the ROI area), its
bounding height lies in `[max(8, int(0.015·H)), max(lo+1, int(0.35·H))]`,
its bounding width lies in `[2, max(3, int(0.65·W))]`, its aspect
ratio `w / max(h,1)` lies in `[0.06, 14]` and its fill ratio
`area / max(w·h,1)` lies in `[0.08, 0.95]` — i.e. the spec's relative
bounds additionally clamped by the absolute minima 12 px area / 8 px
height and with truncated cutoffs. -/
theorem c6_component_filter_amended (roiW roiH width height area : Nat) :
    componentKept roiW roiH width height area = true ↔
      (min_area roiW roiH ≤ area ∧ area ≤ max_area roiW roiH ∧
       min_box_w ≤ width ∧ width ≤ max_box_w roiW ∧
       min_box_h roiH ≤ height ∧ height ≤ max_box_h roiH ∧
       mkRat 6 100 ≤ mkRat width (max height 1) ∧ mkRat width (max height 1) ≤ 14 ∧
       mkRat 8 100 ≤ mkRat area (max (width * height) 1) ∧
       mkRat area (max (width * height) 1) ≤ mkRat 95 100) := by
  simp only [componentKept]
  split_ifs with h1 h2 h3 h4 h5
  · simp only [false_iff]
    intro hc
    rcases h1 with h | h <;> omega
  · simp only [false_iff]
    intro hc
    rcases h2 with h | h <;> omega
  · simp only [false_iff]
    intro hc
    rcases h3 with h | h <;> omega
  · simp only [false_iff]
    intro hc
    obtain ⟨-, -, -, -, -, -, ha1, ha2, -, -⟩ := hc
    rcases h4 with h | h <;> linarith
  · simp only [false_iff]
    intro hc
    obtain ⟨-, -, -, -, -, -, -, -, hf1, hf2⟩ := hc
    rcases h5 with h | h <;> linarith
  · simp only [true_iff]
    push_neg at h1 h2 h3 h4 h5
    exact ⟨h1.1, h1.2, h2.1, h2.2, h3.1, h3.2, h4.2, h4.1, h5.1, h5.2⟩

/-- C6 counterexample: in a 100×100 ROI, a component with bounding box
3×2 and area 5 satisfies every bound the claim states (area 5 ∈
[0.8, 800], height 2 ∈ [1.5, 35], width 3 ∈ [2, 65], aspect 1.5,
fill 5/6), yet the code rejects it: its area is below the absolute
floor `min_area = max(12, int(0.8)) = 12` (and its height is below
`min_box_h = max(8, int(1.5)) = 8`). -/
theorem c6_component_filter_counterexample :
    componentKeptClaimed 100 100 3 2 5 ∧ componentKept 100 100 3 2 5 = false := by
  constructor
  · refine ⟨by decide, by decide, by decide, by decide, by decide, by decide,
      by decide, by decide, by decide, by decide⟩
  · decide

/-! ## Thumbnail selection (`_build_thumbnail_list`, `src/app.py`
lines 109-131)

`_video_duration` is computed from external OpenCV properties, so the
duration enters as a parameter; the frame-source contract (§6 of the
spec) makes it a nonnegative number of seconds.  Frame decoding
(`_extract_frame`) is external and enters as the oracle `decode`; a
thumbnail entry is produced exactly for the candidate timestamps whose
decode succeeds.  Entries are identified with their timestamps. -/

/-- Python's `round` on floats: round half to even. -/
def pyRound (q : ℚ) : ℤ :=
  let f := ⌊q⌋
  let r := q - (f : ℚ)
  if r < 1/2 then f
  else if 1/2 < r then f + 1
  else if f % 2 = 0 then f else f + 1

/-- `THUMB_TIMESTAMPS = [0, 5, 10, 20, 30, 40]` (line 26). -/
def THUMB_TIMESTAMPS : List ℚ := [0, 5, 10, 20, 30, 40]

/-- The `for i in range(6)` candidate-padding loop (lines 116-119):
appends `round(i * step)` when it is `≤ duration` and not already
present. -/
def addCandidates (duration step : ℚ) : List Nat → List ℚ → List ℚ
  | [], ts => ts
  | i :: is, ts =>
    let candidate : ℚ := ((pyRound ((i : ℚ) * step) : ℤ) : ℚ)
    addCandidates duration step is
      (if candidate ≤ duration ∧ candidate ∉ ts then ts ++ [candidate] else ts)

/-- The candidate timestamp list of `_build_thumbnail_list`
(lines 110-120): fixed candidates filtered to `≤ duration`, `[0]`
fallback, padding when fewer than 6 and the duration is positive, then
`sorted(timestamps)[:6]`. -/
def thumbCandidates (duration : ℚ) : List ℚ :=
  let ts0 := THUMB_TIMESTAMPS.filter (fun t => decide (t ≤ duration))
  let ts1 := if ts0 = [] then [0] else ts0
  let ts2 :=
    if ts1.length < 6 ∧ 0 < duration then
      addCandidates duration (max (duration / 6) 1) (List.range 6) ts1
    else ts1
  (List.insertionSort (· ≤ ·) ts2).take 6

/-- `_build_thumbnail_list` (lines 109-131): candidates whose frame
decodes successfully, in candidate order. -/
def _build_thumbnail_list (duration : ℚ) (decode : ℚ → Bool) : List ℚ :=
  (thumbCandidates duration).filter decode

/-- The padding loop preserves distinctness, the `≤ duration` bound, and
only ever appends. -/
lemma addCandidates_inv (duration step : ℚ) : ∀ (is : List Nat) (ts : List ℚ),
    ts.Nodup → (∀ t ∈ ts, t ≤ duration) →
    (addCandidates duration step is ts).Nodup ∧
    (∀ t ∈ addCandidates duration step is ts, t ≤ duration) ∧
    ∃ ex, addCandidates duration step is ts = ts ++ ex := by
  intro is
  induction is with
  | nil =>
    intro ts hnd hle
    exact ⟨hnd, hle, [], by simp [addCandidates]⟩
  | cons i is ih =>
    intro ts hnd hle
    simp only [addCandidates]
    split_ifs with hg
    · obtain ⟨ha, hb, ex, hex⟩ := ih (ts ++ [((pyRound ((i : ℚ) * step) : ℤ) : ℚ)])
        (by simp [List.nodup_append, hnd, hg.2])
        (by
          intro t ht
          rcases List.mem_append.mp ht with h | h
          · exact hle t h
          · rw [List.mem_singleton] at h; subst h; exact hg.1)
      exact ⟨ha, hb, ((pyRound ((i : ℚ) * step) : ℤ) : ℚ) :: ex, by rw [hex]; simp⟩
    · exact ih ts hnd hle

/-- Properties of the candidate list under the frame-source contract
`0 ≤ duration`: distinct, strictly sorted, bounded by the duration,
and between 1 and 6 entries. -/
lemma thumbCandidates_spec (duration : ℚ) (h0 : 0 ≤ duration) :
    (thumbCandidates duration).Pairwise (· < ·) ∧
    (∀ t ∈ thumbCandidates duration, t ≤ duration) ∧
    1 ≤ (thumbCandidates duration).length ∧ (thumbCandidates duration).length ≤ 6 := by
  unfold thumbCandidates
  have hthumb : THUMB_TIMESTAMPS.Nodup := by decide
  set ts0 := THUMB_TIMESTAMPS.filter (fun t => decide (t ≤ duration)) with hts0
  have hnd0 : ts0.Nodup := hthumb.filter _
  have hle0 : ∀ t ∈ ts0, t ≤ duration := by
    intro t ht
    rw [hts0, List.mem_filter] at ht
    exact of_decide_eq_true ht.2
  set ts1 := if ts0 = [] then [0] else ts0 with hts1
  have hnd1 : ts1.Nodup := by
    rw [hts1]; split_ifs with h
    · simp
    · exact hnd0
  have hle1 : ∀ t ∈ ts1, t ≤ duration := by
    rw [hts1]; split_ifs with h
    · intro t ht; rw [List.mem_singleton] at ht; subst ht; exact h0
    · exact hle0
  have hne1 : ts1 ≠ [] := by
    rw [hts1]; split_ifs with h
    · simp
    · exact h
  set ts2 := if ts1.length < 6 ∧ 0 < duration then
      addCandidates duration (max (duration / 6) 1) (List.range 6) ts1
    else ts1 with hts2
  have h2 : ts2.Nodup ∧ (∀ t ∈ ts2, t ≤ duration) ∧ ∃ ex, ts2 = ts1 ++ ex := by
    rw [hts2]; split_ifs with h
    · exact addCandidates_inv duration _ (List.range 6) ts1 hnd1 hle1
    · exact ⟨hnd1, hle1, [], by simp⟩
  obtain ⟨hnd2, hle2, ex, hex⟩ := h2
  have hne2 : ts2 ≠ [] := by
    rw [hex]
    intro h
    exact hne1 (List.append_eq_nil.mp h).1
  have hsorted : (List.insertionSort (· ≤ ·) ts2).Sorted (· ≤ ·) :=
    List.sorted_insertionSort (· ≤ ·) ts2
  have hperm : List.Perm (List.insertionSort (· ≤ ·) ts2) ts2 :=
    List.perm_insertionSort (· ≤ ·) ts2
  have hndS : (List.insertionSort (· ≤ ·) ts2).Nodup := hperm.nodup_iff.mpr hnd2
  have hlt : (List.insertionSort (· ≤ ·) ts2).Sorted (· < ·) :=
    List.Sorted.lt_of_le hsorted hndS
  refine ⟨?_, ?_, ?_, ?_⟩
  · exact List.Pairwise.sublist (List.take_sublist 6 _) hlt
  · intro t ht
    exact hle2 t (hperm.mem_iff.mp ((List.take_sublist 6 _).subset ht))
  · rw [List.length_take, hperm.length_eq]
    have : 0 < ts2.length := List.length_pos.mpr hne2
    omega
  · rw [List.length_take]
    omega

/-- C4 (amended): for every video (nonnegative duration, per the
frame-source contract) the thumbnail list has **at most** 6 entries,
strictly sorted by ascending timestamp, every timestamp `≤ duration`;
it has at least one entry whenever every candidate frame decodes — but
entries whose decode fails are dropped, so in general the count can
be 0, not 1. -/
theorem c4_thumbnail_list_amended (duration : ℚ) (decode : ℚ → Bool) (h0 : 0 ≤ duration) :
    (_build_thumbnail_list duration decode).length ≤ 6 ∧
    (_build_thumbnail_list duration decode).Pairwise (· < ·) ∧
    (∀ t ∈ _build_thumbnail_list duration decode, t ≤ duration) ∧
    ((∀ t ∈ thumbCandidates duration, decode t = true) →
      1 ≤ (_build_thumbnail_list duration decode).length) := by
  obtain ⟨hpw, hle, hlen1, hlen6⟩ := thumbCandidates_spec duration h0
  refine ⟨?_, ?_, ?_, ?_⟩
  · exact le_trans (List.filter_sublist _).length_le hlen6
  · exact List.Pairwise.sublist (List.filter_sublist _) hpw
  · intro t ht
    exact hle t ((List.filter_sublist _).subset ht)
  · intro hall
    unfold _build_thumbnail_list
    rw [List.filter_eq_self.mpr hall]
    exact hlen1

/-- C4 witness: at duration 10 with every decode succeeding, the claim
instance follows from the amended theorem. -/
theorem c4_thumbnail_list_witness :
    (0:ℚ) ≤ 10 ∧ 1 ≤ (_build_thumbnail_list 10 (fun _ => true)).length ∧
    (_build_thumbnail_list 10 (fun _ => true)).length ≤ 6 :=
  ⟨by norm_num,
   (c4_thumbnail_list_amended 10 (fun _ => true) (by norm_num)).2.2.2 (fun _ _ => rfl),
   (c4_thumbnail_list_amended 10 (fun _ => true) (by norm_num)).1⟩

/-- C4 counterexample: a video whose duration reads as 0 and whose
frames all fail to decode (an unreadable file) produces an **empty**
thumbnail list — fewer than the 1 entry the claim guarantees. -/
theorem c4_thumbnail_list_counterexample :
    _build_thumbnail_list 0 (fun _ => false) = [] ∧
    ¬(1 ≤ (_build_thumbnail_list 0 (fun _ => false)).length) := by
  constructor
  · decide
  · decide

/-! ## Job state and the `set_roi` control operation (`src/app.py`
lines 353-373, 402-429)

`Roi` is the attached rectangle; `FormValue` classifies what
`request.form.get` can hand to `_to_int_or_zero`: the key can be
missing (`None`), the empty string, a string `float()` cannot parse
(`ValueError`/`TypeError`, caught), the string `"nan"` (parses, then
`int(nan)` raises `ValueError`, caught), or a string parsing to a
finite float value.  (A string parsing to an infinity would raise an
uncaught `OverflowError` in the source; such a value is numeric, not
missing or non-numeric, and lies outside the rational model.) -/

structure Roi where
  x : ℤ
  y : ℤ
  w : ℤ
  h : ℤ
deriving DecidableEq

inductive FormValue where
  | missing
  | empty
  | malformed
  | nanVal
  | numeric (q : ℚ)
deriving DecidableEq

/-- `int(q)` for a float: truncation toward zero. -/
def truncQ (q : ℚ) : ℤ := if 0 ≤ q then ⌊q⌋ else -⌊-q⌋

/-- `_to_int_or_zero` (`src/app.py` lines 409-415). -/
def _to_int_or_zero : FormValue → ℤ
  | FormValue.missing => 0
  | FormValue.empty => 0
  | FormValue.malformed => 0
  | FormValue.nanVal => 0
  | FormValue.numeric q => truncQ q

structure RoiForm where
  x : FormValue
  y : FormValue
  w : FormValue
  h : FormValue
deriving DecidableEq

/-- The job-record fields this development needs (`JOBS[job_id]`,
lines 353-373).  Fields mutated only through modelled operations. -/
structure JobState where
  roi : Option Roi
  status : String
  error : String
  cancelRequested : Bool
  limitTo60 : Bool
  koreanOnly : Bool
  includeEnglish : Bool
  selectedFrame : Bool
deriving DecidableEq

/-- Error message of the `set_roi` rejection branch (line 423). -/
def roiDragMsg : String := "ROI를 드래그로 지정하세요."

/-- `set_roi` handler body for an existing job (lines 402-429; the
unknown-job path returns without touching any job). -/
def set_roi (form : RoiForm) (job : JobState) : JobState :=
  let x := _to_int_or_zero form.x
  let y := _to_int_or_zero form.y
  let w := _to_int_or_zero form.w
  let h := _to_int_or_zero form.h
  if w ≤ 0 ∨ h ≤ 0 then { job with error := roiDragMsg }
  else { job with roi := some ⟨x, y, w, h⟩, status := "roi_set", error := "" }

/-- C3: for every existing job, an ROI request whose coerced width and
height are positive attaches the ROI and moves the status to
`roi_set`; a request with `w ≤ 0` or `h ≤ 0` leaves the status and the
previously stored ROI unchanged and sets the error message. -/
theorem c3_set_roi (form : RoiForm) (job : JobState) :
    (0 < _to_int_or_zero form.w → 0 < _to_int_or_zero form.h →
      (set_roi form job).roi = some ⟨_to_int_or_zero form.x, _to_int_or_zero form.y,
        _to_int_or_zero form.w, _to_int_or_zero form.h⟩ ∧
      (set_roi form job).status = "roi_set") ∧
    (_to_int_or_zero form.w ≤ 0 ∨ _to_int_or_zero form.h ≤ 0 →
      (set_roi form job).status = job.status ∧ (set_roi form job).roi = job.roi ∧
      (set_roi form job).error = roiDragMsg) := by
  constructor
  · intro hw hh
    unfold set_roi
    rw [if_neg (by omega)]
    exact ⟨rfl, rfl⟩
  · intro h
    unfold set_roi
    rw [if_pos h]
    exact ⟨rfl, rfl, rfl⟩

/-- A concrete job in state `frame_selected` with no ROI. -/
def jobEx : JobState :=
  { roi := none, status := "frame_selected", error := "", cancelRequested := false,
    limitTo60 := true, koreanOnly := false, includeEnglish := false, selectedFrame := true }

/-- C3 witness: the accepted branch at the concrete request
`(x, y, w, h) = (1, 2, 3, 4)`. -/
theorem c3_set_roi_witness :
    (set_roi ⟨FormValue.numeric 1, FormValue.numeric 2, FormValue.numeric 3,
        FormValue.numeric 4⟩ jobEx).roi = some ⟨1, 2, 3, 4⟩ ∧
    (set_roi ⟨FormValue.numeric 1, FormValue.numeric 2, FormValue.numeric 3,
        FormValue.numeric 4⟩ jobEx).status = "roi_set" := by
  have h := (c3_set_roi ⟨FormValue.numeric 1, FormValue.numeric 2, FormValue.numeric 3,
    FormValue.numeric 4⟩ jobEx).1 (by decide) (by decide)
  refine ⟨?_, h.2⟩
  rw [h.1]
  decide

/-- C10: `set_roi` coerces missing, empty and non-numeric form values
to the integer 0 without raising; any request whose width or height is
missing or non-numeric therefore takes the rejection branch; and every
ROI an invocation of `set_roi` ever attaches has integer `w > 0` and
`h > 0`. -/
theorem c10_roi_coercion :
    (_to_int_or_zero FormValue.missing = 0 ∧ _to_int_or_zero FormValue.empty = 0 ∧
     _to_int_or_zero FormValue.malformed = 0 ∧ _to_int_or_zero FormValue.nanVal = 0) ∧
    (∀ (form : RoiForm) (job : JobState),
      (form.w = FormValue.missing ∨ form.w = FormValue.empty ∨
       form.w = FormValue.malformed ∨ form.h = FormValue.missing ∨
       form.h = FormValue.empty ∨ form.h = FormValue.malformed) →
      (set_roi form job).status = job.status ∧ (set_roi form job).roi = job.roi ∧
      (set_roi form job).error = roiDragMsg) ∧
    (∀ (form : RoiForm) (job : JobState),
      (set_roi form job).roi = job.roi ∨
      ∃ r : Roi, (set_roi form job).roi = some r ∧ 0 < r.w ∧ 0 < r.h) := by
  refine ⟨⟨rfl, rfl, rfl, rfl⟩, ?_, ?_⟩
  · intro form job hm
    have hzero : _to_int_or_zero form.w ≤ 0 ∨ _to_int_or_zero form.h ≤ 0 := by
      rcases hm with h | h | h | h | h | h <;> rw [h] <;> simp [_to_int_or_zero]
    unfold set_roi
    rw [if_pos hzero]
    exact ⟨rfl, rfl, rfl⟩
  · intro form job
    unfold set_roi
    by_cases hg : _to_int_or_zero form.w ≤ 0 ∨ _to_int_or_zero form.h ≤ 0
    · rw [if_pos hg]
      exact Or.inl rfl
    · rw [if_neg hg]
      exact Or.inr ⟨_, rfl, by dsimp only; omega, by dsimp only; omega⟩

/-- C10 witness: a request with missing width is rejected in place. -/
theorem c10_roi_coercion_witness :
    (set_roi ⟨FormValue.numeric 1, FormValue.numeric 2, FormValue.missing,
        FormValue.numeric 4⟩ jobEx).status = jobEx.status ∧
    (set_roi ⟨FormValue.numeric 1, FormValue.numeric 2, FormValue.missing,
        FormValue.numeric 4⟩ jobEx).roi = jobEx.roi :=
  ⟨(c10_roi_coercion.2.1 ⟨FormValue.numeric 1, FormValue.numeric 2, FormValue.missing,
      FormValue.numeric 4⟩ jobEx (Or.inl rfl)).1,
   (c10_roi_coercion.2.1 ⟨FormValue.numeric 1, FormValue.numeric 2, FormValue.missing,
      FormValue.numeric 4⟩ jobEx (Or.inl rfl)).2.1⟩

/-! ## The OCR worker (`_ocr_worker`, `src/app.py` lines 200-324)

The worker runs on its own thread.  Its effect on the job record is
modelled as the ordered list of job-field writes (`WEvent`) it
performs; everything it *reads* that other threads may change — the
job's presence in the registry and the `cancel_requested` flag, both
re-read under the lock at the top of every sample iteration — and
everything obtained from external collaborators (whether the video
opens, its duration, each frame decode, the OCR text of each sample)
enters through `WorkerEnv`/`SampleEnv` oracles.  The `except` handler
at lines 315-321 only catches faults raised by the external calls, so
it does not appear on the modelled (fault-free) paths.  The
`pytesseract` invocation and the `psm`/`lang` configuration it is
passed only influence the oracle text, so they are absorbed into
`Frame.ocrText`. -/

/-- One decoded frame together with the text OCR returns for its
cropped ROI (`cap.read`, `pytesseract.image_to_string(...).splitlines()`). -/
structure Frame where
  hFrame : Nat
  wFrame : Nat
  ocrText : List (List Char)
deriving DecidableEq

/-- What the worker observes at the top of one sample iteration:
whether the job is still registered, the value of its
`cancel_requested` flag, and the decode result for this timestamp. -/
structure SampleEnv where
  present : Bool
  cancel : Bool
  frame : Option Frame
deriving DecidableEq

/-- Per-run environment of the worker. -/
structure WorkerEnv where
  present0 : Bool
  videoOpens : Bool
  rawDuration : Nat
  debug : Bool
  samples : Nat → SampleEnv

/-- A single write the worker performs on its job's record (or the
result file). -/
inductive WEvent where
  | statusSet (s : String)
  | errorSet (s : String)
  | resultTextSet (lines : List (List Char))
  | resultFileSet
  | resultFileWrite (lines : List (List Char))
  | progressCurrentSet (n : Nat)
  | progressTotalSet (n : Nat)
  | rawCountSet (n : Nat)
  | cleanedCountSet (n : Nat)
  | sampleStart (sec : Nat)
  | debugSet
deriving DecidableEq

/-- `OCR_INTERVAL_SECONDS = 2` (line 27). -/
def OCR_INTERVAL_SECONDS : Nat := 2

/-- `OCR_MAX_SECONDS_DEFAULT = 60` (line 28). -/
def OCR_MAX_SECONDS_DEFAULT : Nat := 60

/-- `range(start, stop, step)` for naturals, `step > 0`. -/
def pyRangeNat (start stop step : Nat) : List Nat :=
  List.range' start ((stop - start + step - 1) / step) step

/-- `sample_seconds = list(range(0, max(duration, 1) + 1,
OCR_INTERVAL_SECONDS))` with the optional 60-second cap applied first
(lines 228-234).  `rawDuration` is `int(total_frames / fps)` (0 when
the frame rate is unreadable). -/
def sample_seconds (rawDuration : Nat) (limit : Bool) : List Nat :=
  let duration := if limit then min rawDuration OCR_MAX_SECONDS_DEFAULT else rawDuration
  let ss := pyRangeNat 0 (max duration 1 + 1) OCR_INTERVAL_SECONDS
  if ss = [] then [0] else ss

/-- ROI-crop bounds check of lines 262-267: the sample is skipped when
the clipped rectangle is empty. -/
def cropValid (roi : Roi) (f : Frame) : Bool :=
  let x2 := min (roi.x + roi.w) (f.wFrame : ℤ)
  let y2 := min (roi.y + roi.h) (f.hFrame : ℤ)
  let x1 := max 0 roi.x
  let y1 := max 0 roi.y
  decide (¬(x2 ≤ x1 ∨ y2 ≤ y1))

/-- Body of one sample iteration after the locked poll (lines
256-299): returns the job-field writes it performs (only the two
debug-artifact fields, written under the lock when `app.debug` is on
and the job is still registered), the additions to `raw_lines`, and
the additions to `lines`. -/
def processSample (e : SampleEnv) (roi : Roi) (debug : Bool) (job : JobState) :
    List WEvent × List (List Char) × List (List Char) :=
  match e.frame with
  | none => ([], [], [])
  | some f =>
    if cropValid roi f then
      let debugEvs := if debug && e.present then [WEvent.debugSet] else []
      let frameLines := f.ocrText.filter (fun ln => !ln.isEmpty && !(pyStrip ln).isEmpty)
      let raw := (frameLines.map _normalize_text).filter (fun ln => !ln.isEmpty)
      let filtered := _filter_subtitle_lines frameLines job.koreanOnly job.includeEnglish
      (debugEvs, raw, filtered)
    else ([], [], [])

/-- The sampling loop (lines 245-299) over `enumerate(sample_seconds,
start=1)`: produces the worker's writes and, if the loop ran to
completion, the accumulated `(raw_lines, lines)`; `none` records an
early `return` (job evicted, or cancellation observed — the latter
after writing status `cancelled`). -/
def ocrLoop (samples : Nat → SampleEnv) (roi : Roi) (debug : Bool) (job : JobState) :
    List (Nat × Nat) → List WEvent × Option (List (List Char) × List (List Char))
  | [] => ([], some ([], []))
  | (idx, sec) :: rest =>
    let e := samples idx
    if !e.present then ([], none)
    else if e.cancel then ([WEvent.statusSet "cancelled"], none)
    else
      let p := processSample e roi debug job
      let r := ocrLoop samples roi debug job rest
      (WEvent.progressCurrentSet idx :: WEvent.sampleStart sec :: p.1 ++ r.1,
       r.2.map (fun acc => (p.2.1 ++ acc.1, p.2.2 ++ acc.2)))

/-- Error message for a missing ROI (line 216). -/
def roiErrMsg : String := "ROI가 설정되지 않았습니다."

/-- Error message for an unopenable video (line 223). -/
def openErrMsg : String := "영상 파일을 열 수 없습니다."

/-- `_ocr_worker` (lines 200-324) as its ordered list of job-field
writes. -/
def _ocr_worker (env : WorkerEnv) (job : JobState) : List WEvent :=
  if !env.present0 then []
  else
    let evs0 := [WEvent.statusSet "processing", WEvent.resultTextSet [], WEvent.errorSet ""]
    match job.roi with
    | none => evs0 ++ [WEvent.statusSet "error", WEvent.errorSet roiErrMsg]
    | some roi =>
      if !env.videoOpens then evs0 ++ [WEvent.statusSet "error", WEvent.errorSet openErrMsg]
      else
        let ss := sample_seconds env.rawDuration job.limitTo60
        let evs1 := evs0 ++ [WEvent.progressCurrentSet 0, WEvent.progressTotalSet ss.length]
        let r := ocrLoop env.samples roi env.debug job (List.enumFrom 1 ss)
        match r.2 with
        | none => evs1 ++ r.1
        | some acc =>
          let deduped := _dedupe_lines acc.2
          evs1 ++ r.1 ++
            [WEvent.resultFileWrite deduped, WEvent.statusSet "done",
             WEvent.resultTextSet deduped, WEvent.resultFileSet,
             WEvent.rawCountSet acc.1.length, WEvent.cleanedCountSet deduped.length]

/-- The sequence of `status` values the worker writes, in order. -/
def statusEvents (evs : List WEvent) : List String :=
  evs.filterMap fun e => match e with
    | WEvent.statusSet s => some s
    | _ => none

/-- Whether an event starts the expensive per-sample work. -/
def isSampleStart : WEvent → Bool
  | WEvent.sampleStart _ => true
  | _ => false

/-- Number of samples whose expensive work was started. -/
def sampleStartCount (evs : List WEvent) : Nat := (evs.filter isSampleStart).length

/-- The last `status` value the worker writes (the job's terminal
status as far as the worker is concerned). -/
def lastStatus (evs : List WEvent) : Option String := (statusEvents evs).getLast?

/-- The per-sample body writes at most the debug-artifact fields. -/
lemma processSample_events (e : SampleEnv) (roi : Roi) (debug : Bool) (job : JobState) :
    (processSample e roi debug job).1 = [] ∨
    (processSample e roi debug job).1 = [WEvent.debugSet] := by
  unfold processSample
  cases e.frame with
  | none => exact Or.inl rfl
  | some f =>
    dsimp only
    by_cases h1 : cropValid roi f = true
    · rw [if_pos h1]
      dsimp only
      by_cases h2 : (debug && e.present) = true
      · rw [if_pos h2]; exact Or.inr rfl
      · rw [if_neg h2]; exact Or.inl rfl
    · rw [if_neg h1]
      exact Or.inl rfl

lemma statusEvents_append (l₁ l₂ : List WEvent) :
    statusEvents (l₁ ++ l₂) = statusEvents l₁ ++ statusEvents l₂ := by
  simp [statusEvents]

lemma sampleStartCount_append (l₁ l₂ : List WEvent) :
    sampleStartCount (l₁ ++ l₂) = sampleStartCount l₁ + sampleStartCount l₂ := by
  simp [sampleStartCount]

lemma sampleStartCount_cons_other (e : WEvent) (l : List WEvent)
    (h : isSampleStart e = false) :
    sampleStartCount (e :: l) = sampleStartCount l := by
  simp [sampleStartCount, List.filter_cons, h]

lemma sampleStartCount_cons_start (sec : Nat) (l : List WEvent) :
    sampleStartCount (WEvent.sampleStart sec :: l) = sampleStartCount l + 1 := by
  simp [sampleStartCount, List.filter_cons, isSampleStart]

/-- If the cancellation flag is first observed `true` at iteration `k`
(all earlier polls see the job present and the flag `false`), the loop
returns early having written exactly one status, `"cancelled"`, as its
final write, having started exactly the `k - i0` earlier samples, and
having written no progress value `≥ k`. -/
lemma ocrLoop_cancelled (samples : Nat → SampleEnv) (roi : Roi) (debug : Bool)
    (job : JobState) :
    ∀ (ss : List Nat) (i0 k : Nat), i0 ≤ k → k < i0 + ss.length →
    (∀ j, i0 ≤ j → j < k → (samples j).present = true ∧ (samples j).cancel = false) →
    (samples k).present = true → (samples k).cancel = true →
    (ocrLoop samples roi debug job (List.enumFrom i0 ss)).2 = none ∧
    statusEvents (ocrLoop samples roi debug job (List.enumFrom i0 ss)).1 = ["cancelled"] ∧
    (ocrLoop samples roi debug job (List.enumFrom i0 ss)).1.getLast? =
      some (WEvent.statusSet "cancelled") ∧
    sampleStartCount (ocrLoop samples roi debug job (List.enumFrom i0 ss)).1 = k - i0 ∧
    (∀ n, WEvent.progressCurrentSet n ∈
        (ocrLoop samples roi debug job (List.enumFrom i0 ss)).1 → i0 ≤ n ∧ n < k) := by
  intro ss
  induction ss with
  | nil =>
    intro i0 k h1 h2 _ _ _
    simp only [List.length_nil] at h2
    omega
  | cons s rest ih =>
    intro i0 k h1 h2 hbefore hpk hck
    by_cases hik : i0 = k
    · subst hik
      have hred : ocrLoop samples roi debug job (List.enumFrom i0 (s :: rest)) =
          ([WEvent.statusSet "cancelled"], none) := by
        simp [List.enumFrom, ocrLoop, hpk, hck]
      rw [hred]
      refine ⟨rfl, rfl, rfl, by simp [sampleStartCount, isSampleStart], ?_⟩
      intro n hn
      simp at hn
    · have hlt : i0 < k := lt_of_le_of_ne h1 hik
      obtain ⟨hp, hc⟩ := hbefore i0 (le_refl i0) hlt
      have ihres := ih (i0 + 1) k (by omega)
        (by simp only [List.length_cons] at h2; omega)
        (fun j hj1 hj2 => hbefore j (by omega) hj2) hpk hck
      obtain ⟨ih1, ih2, ih3, ih4, ih5⟩ := ihres
      have hne : (ocrLoop samples roi debug job (List.enumFrom (i0 + 1) rest)).1 ≠ [] := by
        intro h
        rw [h] at ih3
        simp at ih3
      have hred : ocrLoop samples roi debug job (List.enumFrom i0 (s :: rest)) =
          (WEvent.progressCurrentSet i0 :: WEvent.sampleStart s ::
            (processSample (samples i0) roi debug job).1 ++
            (ocrLoop samples roi debug job (List.enumFrom (i0 + 1) rest)).1,
           ((ocrLoop samples roi debug job (List.enumFrom (i0 + 1) rest)).2.map
             (fun acc => ((processSample (samples i0) roi debug job).2.1 ++ acc.1,
               (processSample (samples i0) roi debug job).2.2 ++ acc.2)))) := by
        simp [List.enumFrom, ocrLoop, hp, hc]
      rw [hred]
      rcases processSample_events (samples i0) roi debug job with hpe | hpe <;> rw [hpe]
      · refine ⟨by rw [ih1]; rfl, ?_, ?_, ?_, ?_⟩
        · rw [statusEvents_append, ih2]
          rfl
        · rw [List.getLast?_append_of_ne_nil _ hne]
          exact ih3
        · rw [sampleStartCount_append, ih4,
            show sampleStartCount [WEvent.progressCurrentSet i0, WEvent.sampleStart s] = 1
              from rfl]
          omega
        · intro n hn
          simp at hn
          rcases hn with rfl | hn
          · exact ⟨le_refl _, hlt⟩
          · have := ih5 n hn
            omega
      · refine ⟨by rw [ih1]; rfl, ?_, ?_, ?_, ?_⟩
        · rw [statusEvents_append, ih2]
          rfl
        · rw [List.getLast?_append_of_ne_nil _ hne]
          exact ih3
        · rw [sampleStartCount_append, ih4,
            show sampleStartCount [WEvent.progressCurrentSet i0, WEvent.sampleStart s,
              WEvent.debugSet] = 1 from rfl]
          omega
        · intro n hn
          simp at hn
          rcases hn with rfl | hn
          · exact ⟨le_refl _, hlt⟩
          · have := ih5 n hn
            omega

/-- With the job present and no cancellation at any polled iteration,
the loop runs to completion and starts one sample per element. -/
lemma ocrLoop_complete (samples : Nat → SampleEnv) (roi : Roi) (debug : Bool)
    (job : JobState) :
    ∀ (ps : List (Nat × Nat)),
    (∀ p ∈ ps, (samples p.1).present = true ∧ (samples p.1).cancel = false) →
    (∃ acc, (ocrLoop samples roi debug job ps).2 = some acc) ∧
    sampleStartCount (ocrLoop samples roi debug job ps).1 = ps.length := by
  intro ps
  induction ps with
  | nil =>
    intro _
    exact ⟨⟨([], []), rfl⟩, rfl⟩
  | cons p rest ih =>
    intro h
    obtain ⟨hp, hc⟩ := h p (List.mem_cons_self p rest)
    obtain ⟨⟨acc, hacc⟩, hcount⟩ := ih (fun q hq => h q (List.mem_cons_of_mem p hq))
    obtain ⟨idx, sec⟩ := p
    simp only at hp hc hacc hcount
    have hred : ocrLoop samples roi debug job ((idx, sec) :: rest) =
        (WEvent.progressCurrentSet idx :: WEvent.sampleStart sec ::
          (processSample (samples idx) roi debug job).1 ++
          (ocrLoop samples roi debug job rest).1,
         ((ocrLoop samples roi debug job rest).2.map
           (fun acc => ((processSample (samples idx) roi debug job).2.1 ++ acc.1,
             (processSample (samples idx) roi debug job).2.2 ++ acc.2)))) := by
      simp [ocrLoop, hp, hc]
    rw [hred]
    constructor
    · rw [hacc]
      exact ⟨_, rfl⟩
    · rcases processSample_events (samples idx) roi debug job with hpe | hpe <;> rw [hpe]
      · rw [sampleStartCount_append, hcount,
          show sampleStartCount [WEvent.progressCurrentSet idx, WEvent.sampleStart sec] = 1
            from rfl]
        simp only [List.length_cons]
        omega
      · rw [sampleStartCount_append, hcount,
          show sampleStartCount [WEvent.progressCurrentSet idx, WEvent.sampleStart sec,
            WEvent.debugSet] = 1 from rfl]
        simp only [List.length_cons]
        omega

/-- C2: if the worker observes the cancellation flag at the top of
sample iteration `k` (all earlier polls saw the job present and the
flag clear), then the worker's status writes are exactly
`processing` followed by the terminal `cancelled` — never `done` or
`error` — its very last write is that `cancelled` status, it started
exactly the `k - 1` samples preceding the observation, and it performs
no progress write `≥ k` (so no increment after the observation). -/
theorem c2_cancellation (env : WorkerEnv) (job : JobState) (roi : Roi) (k : Nat)
    (hpres : env.present0 = true) (hroi : job.roi = some roi)
    (hopen : env.videoOpens = true)
    (hk1 : 1 ≤ k) (hk : k ≤ (sample_seconds env.rawDuration job.limitTo60).length)
    (hbefore : ∀ j, 1 ≤ j → j < k →
      (env.samples j).present = true ∧ (env.samples j).cancel = false)
    (hatP : (env.samples k).present = true) (hatC : (env.samples k).cancel = true) :
    statusEvents (_ocr_worker env job) = ["processing", "cancelled"] ∧
    (_ocr_worker env job).getLast? = some (WEvent.statusSet "cancelled") ∧
    sampleStartCount (_ocr_worker env job) = k - 1 ∧
    (∀ n, WEvent.progressCurrentSet n ∈ _ocr_worker env job → n < k) := by
  obtain ⟨hl1, hl2, hl3, hl4, hl5⟩ := ocrLoop_cancelled env.samples roi env.debug job
    (sample_seconds env.rawDuration job.limitTo60) 1 k hk1 (by omega)
    hbefore hatP hatC
  have hne : (ocrLoop env.samples roi env.debug job
      (List.enumFrom 1 (sample_seconds env.rawDuration job.limitTo60))).1 ≠ [] := by
    intro h
    rw [h] at hl3
    simp at hl3
  have hw : _ocr_worker env job =
      [WEvent.statusSet "processing", WEvent.resultTextSet [], WEvent.errorSet "",
       WEvent.progressCurrentSet 0,
       WEvent.progressTotalSet (sample_seconds env.rawDuration job.limitTo60).length] ++
      (ocrLoop env.samples roi env.debug job
        (List.enumFrom 1 (sample_seconds env.rawDuration job.limitTo60))).1 := by
    simp only [_ocr_worker, hpres, hroi, hopen, Bool.not_true, Bool.false_eq_true,
      if_false, hl1]
    rfl
  rw [hw]
  refine ⟨?_, ?_, ?_, ?_⟩
  · rw [statusEvents_append, hl2]
    rfl
  · rw [List.getLast?_append_of_ne_nil _ hne]
    exact hl3
  · rw [sampleStartCount_append, hl4,
      show sampleStartCount [WEvent.statusSet "processing", WEvent.resultTextSet [],
        WEvent.errorSet "", WEvent.progressCurrentSet 0,
        WEvent.progressTotalSet (sample_seconds env.rawDuration job.limitTo60).length] = 0
        from rfl]
    omega
  · intro n hn
    rcases List.mem_append.mp hn with h | h
    · simp at h
      omega
    · exact (hl5 n h).2

/-- A job carrying an attached ROI, as `start_ocr` hands it to the
worker. -/
def jobWithRoi : JobState :=
  { roi := some ⟨0, 0, 10, 10⟩, status := "roi_set", error := "", cancelRequested := false,
    limitTo60 := true, koreanOnly := false, includeEnglish := false, selectedFrame := true }

/-- Environment in which the cancellation flag is already set when the
first sample iteration polls it. -/
def envCancelNow : WorkerEnv :=
  { present0 := true, videoOpens := true, rawDuration := 0, debug := false,
    samples := fun _ => { present := true, cancel := true, frame := none } }

/-- C2 witness: cancellation observed at the first iteration of a
concrete run ends with statuses `processing, cancelled` and zero
samples started. -/
theorem c2_cancellation_witness :
    statusEvents (_ocr_worker envCancelNow jobWithRoi) = ["processing", "cancelled"] ∧
    sampleStartCount (_ocr_worker envCancelNow jobWithRoi) = 1 - 1 := by
  have h := c2_cancellation envCancelNow jobWithRoi ⟨0, 0, 10, 10⟩ 1 rfl rfl rfl
    (le_refl 1) (by decide) (by intro j h1 h2; omega) rfl rfl
  exact ⟨h.1, h.2.2.1⟩

/-- C5: a 130-second video with the default 60-second cap enabled and
the default 2-second stride yields `floor(60/2)+1 = 31` sample
iterations: the worker writes `progress_total = 31` and, when no
cancellation occurs and the job stays registered, starts exactly 31
samples. -/
theorem c5_sampling_total (env : WorkerEnv) (job : JobState) (roi : Roi)
    (hpres : env.present0 = true) (hroi : job.roi = some roi)
    (hopen : env.videoOpens = true) (hdur : env.rawDuration = 130)
    (hlimit : job.limitTo60 = true)
    (hnc : ∀ j, (env.samples j).present = true ∧ (env.samples j).cancel = false) :
    WEvent.progressTotalSet 31 ∈ _ocr_worker env job ∧
    sampleStartCount (_ocr_worker env job) = 31 := by
  have hss : (sample_seconds env.rawDuration job.limitTo60).length = 31 := by
    rw [hdur, hlimit]
    decide
  obtain ⟨⟨acc, hacc⟩, hcount⟩ := ocrLoop_complete env.samples roi env.debug job
    (List.enumFrom 1 (sample_seconds env.rawDuration job.limitTo60))
    (fun p _ => hnc p.1)
  have hw : _ocr_worker env job =
      [WEvent.statusSet "processing", WEvent.resultTextSet [], WEvent.errorSet "",
       WEvent.progressCurrentSet 0,
       WEvent.progressTotalSet (sample_seconds env.rawDuration job.limitTo60).length] ++
      (ocrLoop env.samples roi env.debug job
        (List.enumFrom 1 (sample_seconds env.rawDuration job.limitTo60))).1 ++
      [WEvent.resultFileWrite (_dedupe_lines acc.2), WEvent.statusSet "done",
       WEvent.resultTextSet (_dedupe_lines acc.2), WEvent.resultFileSet,
       WEvent.rawCountSet acc.1.length,
       WEvent.cleanedCountSet (_dedupe_lines acc.2).length] := by
    simp only [_ocr_worker, hpres, hroi, hopen, Bool.not_true, Bool.false_eq_true,
      if_false, hacc]
    rfl
  rw [hw]
  constructor
  · rw [hss]
    simp
  · rw [sampleStartCount_append, sampleStartCount_append, hcount,
      List.enumFrom_length,
      show sampleStartCount [WEvent.statusSet "processing", WEvent.resultTextSet [],
        WEvent.errorSet "", WEvent.progressCurrentSet 0,
        WEvent.progressTotalSet (sample_seconds env.rawDuration job.limitTo60).length] = 0
        from rfl,
      show sampleStartCount [WEvent.resultFileWrite (_dedupe_lines acc.2),
        WEvent.statusSet "done", WEvent.resultTextSet (_dedupe_lines acc.2),
        WEvent.resultFileSet, WEvent.rawCountSet acc.1.length,
        WEvent.cleanedCountSet (_dedupe_lines acc.2).length] = 0 from rfl, hss]

/-- Environment of a 130-second video whose job is never cancelled; the
decode results are irrelevant to the iteration counts, so every decode
fails here. -/
def env130 : WorkerEnv :=
  { present0 := true, videoOpens := true, rawDuration := 130, debug := false,
    samples := fun _ => { present := true, cancel := false, frame := none } }

/-- C5 witness: the concrete 130-second run. -/
theorem c5_sampling_total_witness :
    WEvent.progressTotalSet 31 ∈ _ocr_worker env130 jobWithRoi ∧
    sampleStartCount (_ocr_worker env130 jobWithRoi) = 31 :=
  c5_sampling_total env130 jobWithRoi ⟨0, 0, 10, 10⟩ rfl rfl rfl rfl rfl
    (fun _ => ⟨rfl, rfl⟩)

/-- C7 (amended): a worker started on a registered job with no ROI
reports the configuration error on the job and produces no transcript
(no result file is written, `result_text` is last written as the empty
transcript), but it sets the job's status to `error` — not a status in
`{frame_selected, roi_set}`; the job's stored frame and ROI fields are
untouched by the worker, so `reset_roi` can re-arm it. -/
theorem c7_no_roi_amended (env : WorkerEnv) (job : JobState)
    (hpres : env.present0 = true) (hroi : job.roi = none) :
    _ocr_worker env job =
      [WEvent.statusSet "processing", WEvent.resultTextSet [], WEvent.errorSet "",
       WEvent.statusSet "error", WEvent.errorSet roiErrMsg] ∧
    lastStatus (_ocr_worker env job) = some "error" ∧
    (∀ l, WEvent.resultFileWrite l ∉ _ocr_worker env job) ∧
    WEvent.errorSet roiErrMsg ∈ _ocr_worker env job := by
  have hw : _ocr_worker env job =
      [WEvent.statusSet "processing", WEvent.resultTextSet [], WEvent.errorSet "",
       WEvent.statusSet "error", WEvent.errorSet roiErrMsg] := by
    simp only [_ocr_worker, hpres, hroi, Bool.not_true, Bool.false_eq_true, if_false]
    rfl
  refine ⟨hw, by rw [hw]; rfl, ?_, by rw [hw]; simp⟩
  intro l
  rw [hw]
  simp

/-- C7 counterexample: on a concrete registered job with no ROI the
worker's terminal status is `error`, which is neither `frame_selected`
nor `roi_set` — the job is *not* left in one of those states, contrary
to the claim's wording. -/
theorem c7_no_roi_counterexample :
    lastStatus (_ocr_worker env130 jobEx) = some "error" ∧
    (some "error" : Option String) ≠ some "frame_selected" ∧
    (some "error" : Option String) ≠ some "roi_set" :=
  ⟨by decide, by decide, by decide⟩

/-- C7 witness: the amended theorem at the concrete no-ROI job. -/
theorem c7_no_roi_witness :
    lastStatus (_ocr_worker env130 jobEx) = some "error" ∧
    (∀ l, WEvent.resultFileWrite l ∉ _ocr_worker env130 jobEx) :=
  ⟨(c7_no_roi_amended env130 jobEx rfl rfl).2.1,
   (c7_no_roi_amended env130 jobEx rfl rfl).2.2.1⟩

/-! ## Lock discipline (`JOBS_LOCK`, `src/app.py` lines 24-25)

The spec requires every read or write of a job's mutable fields
(status, progress, result, error, cancellation flag) to happen while
holding the single registry lock.  This is a static property of the
code: below, each function's job-field accesses are transcribed in
source order, tagged with whether the access occurs inside a
`with JOBS_LOCK:` block.  Accesses to the captured local `roi` dict
(line 241) are not job-record accesses and are not listed. -/

structure FieldAccess where
  field : String
  isWrite : Bool
  locked : Bool
deriving DecidableEq

/-- The mutable job fields the spec's locking rule names: status,
progress, result, error, cancellation flag. -/
def mutableJobFields : List String :=
  ["status", "progress_current", "progress_total", "result_text", "result_file",
   "error", "cancel_requested"]

def isMutableAccess (a : FieldAccess) : Bool := mutableJobFields.contains a.field

/-- Job-field accesses of `_ocr_worker` (lines 200-324), in source
order.  Lines 203-209, 214-216, 221-223, 237-239, 247-254, 279-282,
309-314 and 318-321 run under `with JOBS_LOCK:`; lines 211-212, 229,
284, 287 and 294 read the captured `job` dict outside the lock. -/
def worker_accesses : List FieldAccess :=
  [⟨"status", true, true⟩, ⟨"result_text", true, true⟩, ⟨"error", true, true⟩,
   ⟨"video_path", false, false⟩, ⟨"roi", false, false⟩,
   ⟨"status", true, true⟩, ⟨"error", true, true⟩,
   ⟨"status", true, true⟩, ⟨"error", true, true⟩,
   ⟨"limit_to_60", false, false⟩,
   ⟨"progress_current", true, true⟩, ⟨"progress_total", true, true⟩,
   ⟨"cancel_requested", false, true⟩, ⟨"status", true, true⟩,
   ⟨"progress_current", true, true⟩,
   ⟨"debug_preprocessed_roi_before", true, true⟩,
   ⟨"debug_preprocessed_roi_after", true, true⟩,
   ⟨"psm_mode", false, false⟩, ⟨"include_english", false, false⟩,
   ⟨"korean_only", false, false⟩,
   ⟨"status", true, true⟩, ⟨"result_text", true, true⟩, ⟨"result_file", true, true⟩,
   ⟨"raw_line_count", true, true⟩, ⟨"cleaned_line_count", true, true⟩,
   ⟨"status", true, true⟩, ⟨"error", true, true⟩]

/-- Job-field accesses of the `set_roi` handler (lines 417-429): no
`with JOBS_LOCK:` appears in the function. -/
def set_roi_accesses : List FieldAccess :=
  [⟨"error", true, false⟩, ⟨"roi", true, false⟩, ⟨"status", true, false⟩,
   ⟨"error", true, false⟩]

/-- Job-field accesses of the `start_ocr` handler (lines 439-453):
no lock. -/
def start_ocr_accesses : List FieldAccess :=
  [⟨"cancel_requested", true, false⟩, ⟨"limit_to_60", true, false⟩,
   ⟨"psm_mode", true, false⟩, ⟨"korean_only", true, false⟩,
   ⟨"include_english", true, false⟩, ⟨"progress_current", true, false⟩,
   ⟨"progress_total", true, false⟩, ⟨"raw_line_count", true, false⟩,
   ⟨"cleaned_line_count", true, false⟩, ⟨"error", true, false⟩]

/-- Job-field accesses of the `reset_roi` handler (lines 466-469):
no lock. -/
def reset_roi_accesses : List FieldAccess :=
  [⟨"cancel_requested", true, false⟩, ⟨"roi", true, false⟩,
   ⟨"selected_frame", false, false⟩, ⟨"status", true, false⟩, ⟨"error", true, false⟩]

/-- Job-field accesses of the `select_frame` handler (lines 385-397):
no lock. -/
def select_frame_accesses : List FieldAccess :=
  [⟨"video_path", false, false⟩, ⟨"selected_timestamp", true, false⟩,
   ⟨"selected_frame", true, false⟩, ⟨"roi", true, false⟩, ⟨"status", true, false⟩,
   ⟨"error", true, false⟩]

/-- C9 (amended): the worker's reads and writes of the mutable job
fields all occur while holding `JOBS_LOCK`, but each of the control
operations — `set_roi`, `start_ocr`, `reset_roi`, `select_frame` —
reads or writes mutable job fields without acquiring the lock. -/
theorem c9_lock_discipline_amended :
    ((worker_accesses.filter isMutableAccess).all (fun a => a.locked)) = true ∧
    ((set_roi_accesses.filter isMutableAccess).any (fun a => !a.locked)) = true ∧
    ((start_ocr_accesses.filter isMutableAccess).any (fun a => !a.locked)) = true ∧
    ((reset_roi_accesses.filter isMutableAccess).any (fun a => !a.locked)) = true ∧
    ((select_frame_accesses.filter isMutableAccess).any (fun a => !a.locked)) = true := by
  decide

/-- C9 counterexample: taken over every code path, the accesses to
mutable job fields are *not* all under the lock — e.g. `set_roi`
writes `status` at line 427 with no lock held. -/
theorem c9_lock_discipline_counterexample :
    (((worker_accesses ++ set_roi_accesses ++ start_ocr_accesses ++ reset_roi_accesses ++
        select_frame_accesses).filter isMutableAccess).all (fun a => a.locked)) = false ∧
    (⟨"status", true, false⟩ : FieldAccess) ∈ set_roi_accesses := by
  decide

end SubtitleApp
